import Mathlib

/-!
Shallow embedding of the nehoid core (encoding pipeline, compressors,
checksum engine, collision-safe generation loop) and proofs about it.

JavaScript strings are modelled as lists of UTF-16 code units (`JStr`);
all 32-bit machine arithmetic is carried out on `Nat` with explicit
`% 2 ^ 32` where the JS code wraps.
-/

/-- A JavaScript string: its list of UTF-16 code unit values. -/
abbrev JStr := List Nat

/-- Embed a Lean string literal as a `JStr` (code points; all literals used
here are ASCII, where code points and UTF-16 code units coincide). -/
def jstr (s : String) : JStr := s.data.map Char.toNat

/-! ### Base64 (JS `btoa` / `atob`)

Modelled from the spec: `btoa`/`atob` are the host runtime's standard
base64 primitives (WHATWG forgiving-base64 on Latin-1 strings).  `btoa`
throws for code units above 255; `atob` throws on malformed input.  Both
are modelled with `Option`, `none` standing for the thrown exception. -/

/-- The base64 alphabet: value (0..63) to character code. -/
def b64ValToChar (v : Nat) : Nat :=
  if v < 26 then 65 + v
  else if v < 52 then 97 + (v - 26)
  else if v < 62 then 48 + (v - 52)
  else if v = 62 then 43
  else 47

/-- Character code to base64 value; `none` for characters outside the alphabet. -/
def b64CharToVal (c : Nat) : Option Nat :=
  if 65 ≤ c ∧ c ≤ 90 then some (c - 65)
  else if 97 ≤ c ∧ c ≤ 122 then some (26 + (c - 97))
  else if 48 ≤ c ∧ c ≤ 57 then some (52 + (c - 48))
  else if c = 43 then some 62
  else if c = 47 then some 63
  else none

/-- Base64-encode a byte list, three bytes to four characters, with `=`
(code 61) padding on the final partial group. -/
def b64EncodeBytes : List Nat → List Nat
  | [] => []
  | [a] => [b64ValToChar (a / 4), b64ValToChar (a % 4 * 16), 61, 61]
  | [a, b] =>
      [b64ValToChar (a / 4), b64ValToChar (a % 4 * 16 + b / 16),
       b64ValToChar (b % 16 * 4), 61]
  | a :: b :: c :: rest =>
      b64ValToChar (a / 4) :: b64ValToChar (a % 4 * 16 + b / 16) ::
      b64ValToChar (b % 16 * 4 + c / 64) :: b64ValToChar (c % 64) ::
      b64EncodeBytes rest

/-- JS `btoa`: throws (here `none`) when some code unit exceeds 255. -/
def btoa (s : JStr) : Option JStr :=
  if s.all (fun c => c < 256) then some (b64EncodeBytes s) else none

/-- Decode one full group of four base64 characters into three bytes. -/
def b64DecodeQuad (p q r s : Nat) : Option (List Nat) := do
  let vp ← b64CharToVal p
  let vq ← b64CharToVal q
  let vr ← b64CharToVal r
  let vs ← b64CharToVal s
  pure [vp * 4 + vq / 16, vq % 16 * 16 + vr / 4, vr % 4 * 64 + vs]

/-- Decode a base64 character list; the final group may have two or three
characters (optionally completed by `=` padding).  A length of 1 mod 4 or a
character outside the alphabet fails, as JS `atob` throws. -/
def b64DecodeChars : List Nat → Option (List Nat)
  | [] => some []
  | [p, q] => do
      let vp ← b64CharToVal p
      let vq ← b64CharToVal q
      pure [vp * 4 + vq / 16]
  | [p, q, r] => do
      let vp ← b64CharToVal p
      let vq ← b64CharToVal q
      let vr ← b64CharToVal r
      pure [vp * 4 + vq / 16, vq % 16 * 16 + vr / 4]
  | p :: q :: r :: s :: rest =>
      if r = 61 ∧ s = 61 ∧ rest = [] then do
        let vp ← b64CharToVal p
        let vq ← b64CharToVal q
        pure [vp * 4 + vq / 16]
      else if s = 61 ∧ rest = [] then do
        let vp ← b64CharToVal p
        let vq ← b64CharToVal q
        let vr ← b64CharToVal r
        pure [vp * 4 + vq / 16, vq % 16 * 16 + vr / 4]
      else do
        let bytes ← b64DecodeQuad p q r s
        let more ← b64DecodeChars rest
        pure (bytes ++ more)
  | [_] => none

/-- JS `atob` (whitespace-free inputs; none of the envelopes built or
reversed here contain whitespace). -/
def atob (s : JStr) : Option JStr := b64DecodeChars s

theorem b64CharToVal_b64ValToChar : ∀ v < 64, b64CharToVal (b64ValToChar v) = some v := by
  decide

theorem b64ValToChar_facts :
    ∀ v : Nat, b64ValToChar v ≠ 58 ∧ b64ValToChar v ≠ 61 ∧ b64ValToChar v < 256 := by
  intro v
  unfold b64ValToChar
  split <;> try (refine ⟨?_, ?_, ?_⟩ <;> omega)
  split <;> try (refine ⟨?_, ?_, ?_⟩ <;> omega)
  split <;> try (refine ⟨?_, ?_, ?_⟩ <;> omega)
  split <;> (refine ⟨?_, ?_, ?_⟩ <;> omega)

theorem mem_b64EncodeBytes :
    ∀ (s : List Nat), ∀ c ∈ b64EncodeBytes s, c ≠ 58 ∧ c < 256
  | [], c, h => by simp [b64EncodeBytes] at h
  | [a], c, h => by
      simp only [b64EncodeBytes, List.mem_cons, List.not_mem_nil, or_false] at h
      rcases h with h | h | h | h <;> subst h <;>
        first
        | exact ⟨(b64ValToChar_facts _).1, (b64ValToChar_facts _).2.2⟩
        | exact ⟨by omega, by omega⟩
  | [a, b], c, h => by
      simp only [b64EncodeBytes, List.mem_cons, List.not_mem_nil, or_false] at h
      rcases h with h | h | h | h <;> subst h <;>
        first
        | exact ⟨(b64ValToChar_facts _).1, (b64ValToChar_facts _).2.2⟩
        | exact ⟨by omega, by omega⟩
  | a :: b :: d :: rest, c, h => by
      simp only [b64EncodeBytes, List.mem_cons] at h
      rcases h with h | h | h | h | h
      · exact h ▸ ⟨(b64ValToChar_facts _).1, (b64ValToChar_facts _).2.2⟩
      · exact h ▸ ⟨(b64ValToChar_facts _).1, (b64ValToChar_facts _).2.2⟩
      · exact h ▸ ⟨(b64ValToChar_facts _).1, (b64ValToChar_facts _).2.2⟩
      · exact h ▸ ⟨(b64ValToChar_facts _).1, (b64ValToChar_facts _).2.2⟩
      · exact mem_b64EncodeBytes rest c h

theorem b64DecodeChars_b64EncodeBytes :
    ∀ (s : List Nat), (∀ c ∈ s, c < 256) →
      b64DecodeChars (b64EncodeBytes s) = some s
  | [], _ => rfl
  | [a], h => by
      have ha : a < 256 := h a (by simp)
      simp [b64EncodeBytes, b64DecodeChars,
        b64CharToVal_b64ValToChar (a / 4) (by omega),
        b64CharToVal_b64ValToChar (a % 4 * 16) (by omega)]
      all_goals omega
  | [a, b], h => by
      have ha : a < 256 := h a (by simp)
      have hb : b < 256 := h b (by simp)
      have hr : b64ValToChar (b % 16 * 4) ≠ 61 := (b64ValToChar_facts _).2.1
      simp [b64EncodeBytes, b64DecodeChars, hr,
        b64CharToVal_b64ValToChar (a / 4) (by omega),
        b64CharToVal_b64ValToChar (a % 4 * 16 + b / 16) (by omega),
        b64CharToVal_b64ValToChar (b % 16 * 4) (by omega)]
      all_goals omega
  | a :: b :: c :: rest, h => by
      have ha : a < 256 := h a (by simp)
      have hb : b < 256 := h b (by simp)
      have hc : c < 256 := h c (by simp)
      have hrest : ∀ x ∈ rest, x < 256 := fun x hx => h x (by simp [hx])
      have h3 : b64ValToChar (b % 16 * 4 + c / 64) ≠ 61 := (b64ValToChar_facts _).2.1
      have h4 : b64ValToChar (c % 64) ≠ 61 := (b64ValToChar_facts _).2.1
      simp [b64EncodeBytes, b64DecodeChars, b64DecodeQuad, h3, h4,
        b64CharToVal_b64ValToChar (a / 4) (by omega),
        b64CharToVal_b64ValToChar (a % 4 * 16 + b / 16) (by omega),
        b64CharToVal_b64ValToChar (b % 16 * 4 + c / 64) (by omega),
        b64CharToVal_b64ValToChar (c % 64) (by omega),
        b64DecodeChars_b64EncodeBytes rest hrest]
      all_goals omega

/-- `atob` inverts `btoa` on strings of code units below 256. -/
theorem atob_btoa (s : JStr) (h : ∀ c ∈ s, c < 256) :
    btoa s = some (b64EncodeBytes s) ∧ atob (b64EncodeBytes s) = some s := by
  constructor
  · unfold btoa
    rw [if_pos]
    simp only [List.all_eq_true, decide_eq_true_eq]
    exact h
  · exact b64DecodeChars_b64EncodeBytes s h

/-! ### Digit rendering helpers

`natDigitsAux b fuel n` is the little-endian base-`b` digit list of `n`
(fuel-driven so it evaluates by kernel reduction; `fuel ≥ n` suffices since
`n / b < n` for `b ≥ 2`, and every caller passes `n + 1`). -/

def natDigitsAux (b : Nat) : Nat → Nat → List Nat
  | 0, _ => []
  | fuel + 1, n => if n = 0 then [] else n % b :: natDigitsAux b fuel (n / b)

/-- Decimal rendering of a natural number, as character codes. -/
def natToDecStr (n : Nat) : JStr :=
  if n = 0 then [48] else ((natDigitsAux 10 (n + 1) n).map (fun d => 48 + d)).reverse

/-! ### Hex encoding (processor-wrapper fallback `hex`)

The in-repo fallback encodes each UTF-16 code unit as
`charCodeAt(i).toString(16).padStart(2, "0")`, and decodes by splitting the
string into chunks of two characters and applying `parseInt(chunk, 16)`. -/

/-- Lowercase hexadecimal digit character for a value below 16. -/
def hexDigitChar (d : Nat) : Nat := if d < 10 then 48 + d else 87 + d

/-- JS `n.toString(16)` for a code unit, then `padStart(2, "0")`. -/
def hexEncodeChar (c : Nat) : JStr :=
  let ds := if c = 0 then [48] else ((natDigitsAux 16 (c + 1) c).map hexDigitChar).reverse
  List.replicate (2 - ds.length) 48 ++ ds

/-- The fallback `hex` encoder: concatenation of the per-character encodings. -/
def hexEncode (s : JStr) : JStr := (s.map hexEncodeChar).join

/-- Split a string into chunks of two characters (JS `str.match(/.{1,2}/g)`);
the final chunk may have a single character. -/
def chunk2 : JStr → List JStr
  | [] => []
  | [a] => [[a]]
  | a :: b :: rest => [a, b] :: chunk2 rest

/-- Hexadecimal digit value of a character code (`parseInt` accepts both cases). -/
def hexVal (c : Nat) : Option Nat :=
  if 48 ≤ c ∧ c ≤ 57 then some (c - 48)
  else if 97 ≤ c ∧ c ≤ 102 then some (c - 87)
  else if 65 ≤ c ∧ c ≤ 70 then some (c - 55)
  else none

/-- JS `String.fromCharCode(parseInt(chunk, 16))` on a 1–2 character chunk:
`parseInt` reads the longest valid numeric portion from the left and yields
`NaN` when the first character is already invalid; `fromCharCode(NaN)` is the
code unit 0. -/
def parseHexChunk : JStr → Nat
  | [a] => (hexVal a).getD 0
  | [a, b] =>
      match hexVal a with
      | none => 0
      | some va =>
          match hexVal b with
          | none => va
          | some vb => va * 16 + vb
  | _ => 0

/-- The fallback `hex` decoder. -/
def hexDecode (s : JStr) : JStr := (chunk2 s).map parseHexChunk

set_option maxRecDepth 10000 in
theorem hexEncodeChar_below_256 :
    ∀ c < 256, hexEncodeChar c = [hexDigitChar (c / 16), hexDigitChar (c % 16)] := by
  decide

set_option maxRecDepth 10000 in
theorem parseHexChunk_hexEncodeChar : ∀ c < 256, parseHexChunk (hexEncodeChar c) = c := by
  decide

set_option maxRecDepth 10000 in
theorem hexEncodeChar_mem : ∀ c < 256, ∀ x ∈ hexEncodeChar c, x ≠ 58 ∧ x < 256 := by
  decide

theorem hexDecode_hexEncode :
    ∀ (s : JStr), (∀ c ∈ s, c < 256) → hexDecode (hexEncode s) = s := by
  intro s
  induction s with
  | nil => intro _; rfl
  | cons c rest ih =>
      intro h
      have hc : c < 256 := h c (by simp)
      have hrest : ∀ x ∈ rest, x < 256 := fun x hx => h x (by simp [hx])
      have hlen := hexEncodeChar_below_256 c hc
      unfold hexDecode hexEncode at *
      simp only [List.map_cons, List.join_cons, hlen]
      rw [show chunk2 ([hexDigitChar (c / 16), hexDigitChar (c % 16)] ++
            (List.map hexEncodeChar rest).join)
          = [hexDigitChar (c / 16), hexDigitChar (c % 16)] ::
            chunk2 (List.map hexEncodeChar rest).join from rfl]
      simp only [List.map_cons]
      rw [← hlen, parseHexChunk_hexEncodeChar c hc]
      exact congrArg (c :: ·) (ih hrest)

/-! ### JS `String.prototype.split`

`input.split(":", 2)` computes all separator-delimited segments and keeps
only the first two — the remainder of the string after the second segment is
discarded. -/

/-- All segments of `l` delimited by `sep` (JS `split` with no limit). -/
def splitAllAux (sep : Nat) : JStr → JStr → List JStr
  | acc, [] => [acc.reverse]
  | acc, c :: rest =>
      if c = sep then acc.reverse :: splitAllAux sep [] rest
      else splitAllAux sep (c :: acc) rest

def splitAll (sep : Nat) (s : JStr) : List JStr := splitAllAux sep [] s

theorem splitAllAux_ne_nil (sep : Nat) :
    ∀ (l acc : JStr), splitAllAux sep acc l ≠ []
  | [], acc => by simp [splitAllAux]
  | c :: rest, acc => by
      unfold splitAllAux
      split
      · simp
      · exact splitAllAux_ne_nil sep rest (c :: acc)

theorem splitAllAux_no_sep (sep : Nat) :
    ∀ (l acc : JStr), sep ∉ l → splitAllAux sep acc l = [acc.reverse ++ l]
  | [], acc, _ => by simp [splitAllAux]
  | c :: rest, acc, h => by
      have hc : c ≠ sep := fun e => h (by simp [e])
      have hrest : sep ∉ rest := fun e => h (by simp [e])
      unfold splitAllAux
      rw [if_neg hc, splitAllAux_no_sep sep rest (c :: acc) hrest]
      simp

theorem splitAllAux_head (sep : Nat) :
    ∀ (l acc : JStr),
      (splitAllAux sep acc l).head? = some (acc.reverse ++ l.takeWhile (· ≠ sep))
  | [], acc => by simp [splitAllAux]
  | c :: rest, acc => by
      unfold splitAllAux
      by_cases hc : c = sep
      · subst hc
        simp [List.takeWhile]
      · rw [if_neg hc, splitAllAux_head sep rest (c :: acc)]
        simp [List.takeWhile_cons, hc]

theorem splitAllAux_tail (sep : Nat) :
    ∀ (l acc : JStr), sep ∈ l →
      (splitAllAux sep acc l).tail = splitAll sep ((l.dropWhile (· ≠ sep)).drop 1)
  | [], _, h => by simp at h
  | c :: rest, acc, h => by
      unfold splitAllAux
      by_cases hc : c = sep
      · subst hc
        simp [List.dropWhile, splitAll]
      · have hrest : sep ∈ rest := by
          rcases List.mem_cons.mp h with h | h
          · exact absurd h.symm hc
          · exact h
        rw [if_neg hc, splitAllAux_tail sep rest (c :: acc) hrest]
        have : (c :: rest).dropWhile (fun x => decide (x ≠ sep))
            = rest.dropWhile (fun x => decide (x ≠ sep)) := by
          simp [List.dropWhile, hc]
        rw [this]

/-- With a separator present, `split(sep, 2)` yields the part before the
first separator and the part strictly between the first and second
occurrences (the second segment being the whole remainder when no second
occurrence exists). -/
theorem splitAll_take_two (sep : Nat) (l : JStr) (h : sep ∈ l) :
    (splitAll sep l).take 2
      = [l.takeWhile (· ≠ sep),
         ((l.dropWhile (· ≠ sep)).drop 1).takeWhile (· ≠ sep)] := by
  have h0 := splitAllAux_ne_nil sep l []
  have h1 := splitAllAux_head sep l []
  have h2 := splitAllAux_tail sep l [] h
  have h3 := splitAllAux_ne_nil sep ((l.dropWhile (· ≠ sep)).drop 1) []
  have h4 := splitAllAux_head sep ((l.dropWhile (· ≠ sep)).drop 1) []
  rcases hx : splitAll sep l with _ | ⟨a, rest⟩
  · exact absurd hx h0
  · unfold splitAll at hx
    rw [hx] at h1 h2
    simp only [List.head?_cons, Option.some.injEq, List.nil_append] at h1
    simp only [List.tail_cons] at h2
    rcases hy : splitAll sep ((l.dropWhile (· ≠ sep)).drop 1) with _ | ⟨b, rest2⟩
    · exact absurd hy h3
    · unfold splitAll at hy
      rw [hy] at h4
      simp only [List.head?_cons, Option.some.injEq, List.nil_append] at h4
      subst h2
      rw [show splitAll sep ((l.dropWhile (· ≠ sep)).drop 1)
            = splitAllAux sep [] ((l.dropWhile (· ≠ sep)).drop 1) from rfl, hy]
      simp [h1, h4]

/-- Splitting `a ++ sep :: b` where neither side contains the separator. -/
theorem splitAll_take_two_clean (sep : Nat) (a b : JStr)
    (ha : sep ∉ a) (hb : sep ∉ b) :
    (splitAll sep (a ++ sep :: b)).take 2 = [a, b] := by
  rw [splitAll_take_two sep _ (by simp)]
  have hta : (a ++ sep :: b).takeWhile (· ≠ sep) = a := by
    rw [List.takeWhile_append_of_pos ?_]
    · rw [List.takeWhile_cons_of_neg] <;> simp
    · intro x hx
      simp only [decide_eq_true_eq]
      exact fun e => ha (e ▸ hx)
  have hda : (a ++ sep :: b).dropWhile (· ≠ sep) = sep :: b := by
    rw [List.dropWhile_append_of_pos ?_]
    · rw [List.dropWhile_cons_of_neg] <;> simp
    · intro x hx
      simp only [decide_eq_true_eq]
      exact fun e => ha (e ▸ hx)
  rw [hta, hda]
  simp only [List.drop_one, List.tail_cons]
  rw [List.takeWhile_eq_self_iff.mpr ?_]
  intro x hx
  simp only [decide_eq_true_eq]
  exact fun e => hb (e ▸ hx)

/-! ### base58 fallback codec (processor-wrapper) -/

/-- The base58 alphabet of the fallback codec, as character codes. -/
def b58Alphabet : JStr := jstr "123456789ABCDEFGHJKLMNPQRSTUVWXYZabcdefghijkmnopqrstuvwxyz"

/-- Fallback `base58` encoder: the code units are read as base-256 digits of
one big number, which is written in base 58; an empty digit string falls
back to the first alphabet character (JS `encoded || ALPHABET[0]`). -/
def base58Encode (s : JStr) : JStr :=
  let num := s.foldl (fun n c => n * 256 + c) 0
  let ds := (natDigitsAux 58 (num + 1) num).reverse.map (fun d => b58Alphabet.getD d 0)
  if ds = [] then [49] else ds

/-- Index of a character in the base58 alphabet (`indexOf`; `none` for -1). -/
def b58CharVal (c : Nat) : Option Nat :=
  let i := b58Alphabet.indexOf c
  if i < b58Alphabet.length then some i else none

/-- Fallback `base58` decoder; throws (`none`) on a character outside the
alphabet. -/
def base58Decode (s : JStr) : Option JStr := do
  let num ← s.foldlM (fun n c => (b58CharVal c).map (fun v => n * 58 + v)) 0
  pure ((natDigitsAux 256 (num + 1) num).reverse)

/-! ### Encoder dispatch

`processor-wrapper` dispatches on the encoding name; names outside the
fallback table leave the input unchanged.  The external
`nehonix-uri-processor` package is not part of this repository; it is
modelled from the spec as implementing the same standard `base64` and `hex`
encodings as the in-repo fallback table. -/

def b64Name : JStr := jstr "base64"
def hexName : JStr := jstr "hex"
def rawHexName : JStr := jstr "rawHex"
def b58Name : JStr := jstr "base58"
def lz77Name : JStr := jstr "lz77"
def gzipName : JStr := jstr "gzip"
def noneName : JStr := jstr "none"

/-- `__processor__.encode` (fallback table): `none` models a thrown
exception (only `base64` can throw, via `btoa`). -/
def fallbackEncode (name s : JStr) : Option JStr :=
  if name = b64Name then btoa s
  else if name = hexName then some (hexEncode s)
  else if name = rawHexName then some s
  else if name = b58Name then some (base58Encode s)
  else some s

/-- `__processor__.decode` (fallback table): `none` models a thrown
exception (`base64` via `atob`, `base58` on foreign characters). -/
def fallbackDecode (name s : JStr) : Option JStr :=
  if name = b64Name then atob s
  else if name = hexName then some (hexDecode s)
  else if name = rawHexName then some s
  else if name = b58Name then base58Decode s
  else some s

/-- `__processor__.encodeMultiple`: each encoding applied to the previous
result; the caller keeps the last result, which is this fold. -/
def encodeSeq (encodings : List JStr) (input : JStr) : Option JStr :=
  encodings.foldlM (fun r e => fallbackEncode e r) input

/-- The decoding fold of `Encoder.decode`, in the order of its loop. -/
def decodeSeq (encodings : List JStr) (input : JStr) : Option JStr :=
  encodings.foldlM (fun r e => fallbackDecode e r) input

/-- `Encoder.decode(input, encodings)`.  The source aliases the caller's
array (`Array.isArray(encodings) ? encodings : [encodings]`) and calls
`.reverse()` on it, mutating it in place before looping; the returned pair
is (decoded result — `none` for a thrown decode error — , the caller's
array as observable after the call). -/
def Encoder.decode (input : JStr) (encodings : List JStr) :
    Option JStr × List JStr :=
  let arr := encodings.reverse
  (decodeSeq arr input, arr)

/-! ### Encoder.compress / Encoder.decompress

Two custom schemes from `encoder.ts`: an LZ77-style sliding-window
compressor (`"lz77"`) and an LZW-style dictionary compressor (`"gzip"`),
both base64-wrapped via `btoa` / `atob`. -/

/-- Length of the match at position `i` against the text `off` characters
back: the JS inner `while` guarded by `i + length < input.length`,
character equality, and `length < 255`.  Fuel 256 suffices because the
guard stops at 255. -/
def lz77MatchLenAux (input : JStr) (i off : Nat) : Nat → Nat → Nat
  | 0, len => len
  | fuel + 1, len =>
      if i + len < input.length ∧ input.getD (i - off + len) 0 = input.getD (i + len) 0
          ∧ len < 255
      then lz77MatchLenAux input i off fuel (len + 1)
      else len

def lz77MatchLen (input : JStr) (i off : Nat) : Nat :=
  lz77MatchLenAux input i off 256 0

/-- Best `(maxLength, maxOffset)` over offsets `1 .. min i 255`, keeping the
first offset attaining a strictly greater length (the JS `>` update). -/
def lz77Best (input : JStr) (i : Nat) : Nat × Nat :=
  (List.range' 1 (min i 255)).foldl
    (fun best off =>
      let len := lz77MatchLen input i off
      if best.1 < len then (len, off) else best)
    (0, 0)

/-- The compression loop.  Each step consumes at least one input position,
so fuel `input.length` is enough; the `0` arm is unreachable. -/
def lz77CompressAux (input : JStr) : Nat → Nat → List Nat
  | 0, _ => []
  | fuel + 1, i =>
      if i < input.length then
        let best := lz77Best input i
        if 4 ≤ best.1 then
          255 :: best.2 :: best.1 :: lz77CompressAux input fuel (i + best.1)
        else
          let c := input.getD i 0
          (if c = 255 then [255, 0] else [c]) ++ lz77CompressAux input fuel (i + 1)
      else []

/-- One back-reference copy: `len` times append `decompressed[start + j]`,
where the source may overlap the freshly written output.  An out-of-range
index is JS `undefined`; `decompressed += undefined` appends the text
"undefined". -/
def lz77CopyAux : Nat → Nat → Int → JStr → JStr
  | 0, _, _, acc => acc
  | rem + 1, j, start, acc =>
      let idx : Int := start + j
      let piece :=
        if 0 ≤ idx ∧ idx.toNat < acc.length then [acc.getD idx.toNat 0]
        else jstr "undefined"
      lz77CopyAux rem (j + 1) start (acc ++ piece)

/-- The LZ77 decompression loop over the byte list.  A flag byte `0xFF`
followed by `0x00` is an escaped literal; followed by two bytes it is an
(offset, length) token; a trailing lone continuation falls through and the
next loop iteration re-reads that byte as a literal, exactly as the JS
index-based loop does. -/
def lz77DecompAux : List Nat → JStr → JStr
  | [], acc => acc
  | 255 :: 0 :: rest2, acc => lz77DecompAux rest2 (acc ++ [255])
  | 255 :: off :: len :: rest2, acc =>
      lz77DecompAux rest2 (lz77CopyAux len 0 ((acc.length : Int) - off) acc)
  | 255 :: rest, acc => lz77DecompAux rest acc
  | c :: rest, acc => lz77DecompAux rest (acc ++ [c])

/-- Association-list lookup for the LZW dictionary (JS object keyed by the
sequence). -/
def lzwLookup (dict : List (JStr × Nat)) (k : JStr) : Option Nat :=
  (dict.find? (fun p => p.1 = k)).map (fun p => p.2)

/-- The LZW dictionary initialised with all 256 single-byte entries. -/
def lzwInitDict : List (JStr × Nat) := (List.range 256).map (fun i => ([i], i))

/-- The LZW compression loop: `cur` is `currentSequence`, `acc` the emitted
codes in reverse.  The final flush emits the code of the pending sequence
(which is always present in the dictionary; `getD 0` covers the
type-theoretically required default). -/
def lzwCompressAux : JStr → List (JStr × Nat) → Nat → JStr → List Nat → List Nat
  | [], dict, _, cur, acc =>
      if cur = [] then acc.reverse
      else (((lzwLookup dict cur).getD 0) :: acc).reverse
  | ch :: rest, dict, nextCode, cur, acc =>
      let newSeq := cur ++ [ch]
      match lzwLookup dict newSeq with
      | some _ => lzwCompressAux rest dict nextCode newSeq acc
      | none =>
          let code := (lzwLookup dict cur).getD 0
          let dict2 := if nextCode < 65536 then dict ++ [(newSeq, nextCode)] else dict
          let next2 := if nextCode < 65536 then nextCode + 1 else nextCode
          lzwCompressAux rest dict2 next2 [ch] (code :: acc)

def lzwCompress (input : JStr) : List Nat :=
  lzwCompressAux input lzwInitDict 256 [] []

/-- The LZW decoder dictionary as a growable array of strings. -/
def lzwInitDictArr : List JStr := (List.range 256).map (fun i => [i])

/-- The LZW decompression loop; an unknown code other than `nextCode`
throws `Invalid code` (`none`). -/
def lzwDecompAux : List Nat → List JStr → Nat → JStr → JStr → Option JStr
  | [], _, _, _, result => some result
  | code :: rest, dict, nextCode, character, result =>
      let entry? : Option JStr :=
        if code < dict.length then some (dict.getD code [])
        else if code = nextCode then some (character ++ [character.headD 0])
        else none
      match entry? with
      | none => none
      | some entry =>
          let dict2 := if nextCode < 65536 then dict ++ [character ++ [entry.headD 0]]
                       else dict
          let next2 := if nextCode < 65536 then nextCode + 1 else nextCode
          lzwDecompAux rest dict2 next2 entry (result ++ entry)

/-- LZW decompression of the decoded byte list.  The `[]` arm is
unreachable: the caller only reaches this after `atob` succeeded on a
non-empty input, which yields at least one byte, and all bytes are
below 256 so the initial dictionary lookup is defined. -/
def lzwDecompress : List Nat → Option JStr
  | [] => some []
  | c0 :: rest =>
      let character := lzwInitDictArr.getD c0 []
      lzwDecompAux rest lzwInitDictArr 256 character character

/-- `Encoder.compress(input, method)`: empty input yields the empty string;
the compressed byte stream is `btoa`-wrapped, and `btoa` throws (`none`)
when a code above 255 is present — the LZW branch builds its output with
`String.fromCharCode(code)` for codes up to 65535, with no try/catch. -/
def Encoder.compress (input method : JStr) : Option JStr :=
  if input = [] then some []
  else if method = lz77Name then btoa (lz77CompressAux input input.length 0)
  else if method = gzipName then btoa (lzwCompress input)
  else some input

/-- `Encoder.decompress(input, method)`: both branches catch every failure
and return the input unchanged, so decompression never throws. -/
def Encoder.decompress (input method : JStr) : JStr :=
  if input = [] then []
  else if method = lz77Name then
    match atob input with
    | none => input
    | some compressed => lz77DecompAux compressed []
  else if method = gzipName then
    match atob input with
    | none => input
    | some compressed =>
        match lzwDecompress compressed with
        | none => input
        | some r => r
  else input

/-! ### Pipeline configuration serialization

Modelled from the spec: `JSON.stringify` / `JSON.parse` are host-runtime
builtins.  The envelope config has the fixed shape
`\x7b"e":[names...],"c":"...","m":\x7b...\x7d\x7d` (spec section 6), and
`reverse` reads only the fields `e` and `c`; the parser below accepts
exactly the canonical serialization this shape produces (metadata values
are modelled as strings; every claim below uses empty metadata). -/

structure PipelineConfig where
  e : List JStr
  c : JStr
  m : List (JStr × JStr)
deriving DecidableEq

/-- JSON string literal with minimal escaping (quote and backslash). -/
def jsonStr (s : JStr) : JStr :=
  34 :: (s.map (fun c => if c = 34 ∨ c = 92 then [92, c] else [c])).join ++ [34]

/-- `JSON.stringify` of the config object, keys in insertion order `e,c,m`. -/
def stringifyConfig (cfg : PipelineConfig) : JStr :=
  [123] ++ jstr "\"e\":" ++
    ([91] ++ (List.intercalate [44] (cfg.e.map jsonStr)) ++ [93]) ++
  [44] ++ jstr "\"c\":" ++ jsonStr cfg.c ++
  [44] ++ jstr "\"m\":" ++
    ([123] ++ (List.intercalate [44]
      (cfg.m.map (fun p => jsonStr p.1 ++ [58] ++ jsonStr p.2))) ++ [125]) ++
  [125]

/-- Consume an expected literal off the front of the input. -/
def consumeLit : JStr → JStr → Option JStr
  | [], s => some s
  | _ :: _, [] => none
  | p :: ps, c :: cs => if p = c then consumeLit ps cs else none

/-- Parse the body of a JSON string literal (after the opening quote). -/
def parseStrAux : JStr → JStr → Option (JStr × JStr)
  | acc, 34 :: rest => some (acc.reverse, rest)
  | acc, 92 :: c :: rest => parseStrAux (c :: acc) rest
  | acc, c :: rest => parseStrAux (c :: acc) rest
  | _, [] => none

def parseJsonString : JStr → Option (JStr × JStr)
  | 34 :: rest => parseStrAux [] rest
  | _ => none

/-- Parse the elements of a JSON array of strings after the first element,
starting at either `,` or `]`. -/
def parseStrListTail : Nat → JStr → Option (List JStr × JStr)
  | _, 93 :: rest => some ([], rest)
  | fuel + 1, 44 :: rest => do
      let (s, r) ← parseJsonString rest
      let (l, r2) ← parseStrListTail fuel r
      pure (s :: l, r2)
  | _, _ => none

/-- Parse a JSON array of strings (at `[`). -/
def parseStrList (s : JStr) : Option (List JStr × JStr) :=
  match s with
  | 91 :: 93 :: rest => some ([], rest)
  | 91 :: rest => do
      let (x, r) ← parseJsonString rest
      let (l, r2) ← parseStrListTail r.length r
      pure (x :: l, r2)
  | _ => none

/-- Parse the pairs of a JSON object of strings after the first pair. -/
def parseStrMapTail : Nat → JStr → Option (List (JStr × JStr) × JStr)
  | _, 125 :: rest => some ([], rest)
  | fuel + 1, 44 :: rest => do
      let (k, r) ← parseJsonString rest
      let r2 ← consumeLit [58] r
      let (v, r3) ← parseJsonString r2
      let (l, r4) ← parseStrMapTail fuel r3
      pure ((k, v) :: l, r4)
  | _, _ => none

/-- Parse a JSON object with string keys and string values (at `\x7b`). -/
def parseStrMap (s : JStr) : Option (List (JStr × JStr) × JStr) :=
  match s with
  | 123 :: 125 :: rest => some ([], rest)
  | 123 :: rest => do
      let (k, r) ← parseJsonString rest
      let r2 ← consumeLit [58] r
      let (v, r3) ← parseJsonString r2
      let (l, r4) ← parseStrMapTail r3.length r3
      pure ((k, v) :: l, r4)
  | _ => none

/-- `JSON.parse` restricted to the canonical config serialization; any
other input is a parse failure (`none`), standing for the thrown
`SyntaxError` that `reverse` catches. -/
def parseConfig (s : JStr) : Option PipelineConfig := do
  let r ← consumeLit ([123] ++ jstr "\"e\":") s
  let (e, r2) ← parseStrList r
  let r3 ← consumeLit ([44] ++ jstr "\"c\":") r2
  let (c, r4) ← parseJsonString r3
  let r5 ← consumeLit ([44] ++ jstr "\"m\":") r4
  let (m, r6) ← parseStrMap r5
  let r7 ← consumeLit [125] r6
  if r7 = [] then pure ⟨e, c, m⟩ else none

/-! ### EncodingPipeline -/

structure EncodingPipeline where
  encoders : List JStr := []
  compressionMethod : JStr := noneName
  isReversible : Bool := false
  metadata : List (JStr × JStr) := []

/-- `addEncoder`: appends to the encoder list. -/
def EncodingPipeline.addEncoder (p : EncodingPipeline) (e : JStr) : EncodingPipeline :=
  { p with encoders := p.encoders ++ [e] }

/-- `addEncoders`: appends all given encoders in order. -/
def EncodingPipeline.addEncoders (p : EncodingPipeline) (es : List JStr) : EncodingPipeline :=
  { p with encoders := p.encoders ++ es }

/-- `addCompression`. -/
def EncodingPipeline.addCompression (p : EncodingPipeline) (m : JStr) : EncodingPipeline :=
  { p with compressionMethod := m }

/-- `enableReversibility`. -/
def EncodingPipeline.enableReversibility (p : EncodingPipeline) : EncodingPipeline :=
  { p with isReversible := true }

/-- `process(input)`: encoders in order, then compression, then — when
reversible — the envelope `base64(JSON config) ":" payload`.  `none`
models an uncaught exception (`process` has no try/catch). -/
def EncodingPipeline.process (p : EncodingPipeline) (input : JStr) : Option JStr := do
  let r1 ← if p.encoders.length > 0 then encodeSeq p.encoders input else some input
  let r2 ← if p.compressionMethod ≠ noneName then Encoder.compress r1 p.compressionMethod
           else some r1
  if p.isReversible then
    let cfgStr ← btoa (stringifyConfig ⟨p.encoders, p.compressionMethod, p.metadata⟩)
    some (cfgStr ++ 58 :: r2)
  else some r2

/-- The processing applied by `reverse` after the split: decode and parse
the config, undo compression when recorded, then decode through the
recorded encodings via `Encoder.decode` (which walks them in reverse). -/
def reverseBody (cfgSeg payload : JStr) : Option JStr := do
  let cfgJson ← atob cfgSeg
  let cfg ← parseConfig cfgJson
  let r1 := if cfg.c ≠ noneName then Encoder.decompress payload cfg.c else payload
  if cfg.e.length > 0 then (Encoder.decode r1 cfg.e).1 else some r1

/-- `reverse(input)`: `null` (here `none`) without a `:` delimiter; the
body runs inside `try`, every thrown failure becoming `null`.  The split
is JS `input.split(":", 2)`. -/
def EncodingPipeline.reverse (input : JStr) : Option JStr :=
  if 58 ∈ input then
    match (splitAll 58 input).take 2 with
    | [cfgSeg, payload] => reverseBody cfgSeg payload
    | _ => none
  else none

/-! ### Checksum engine (`checksum.ts`)

All five digests produce a 32-bit unsigned value.  JS mixes signed and
unsigned 32-bit views (`|0`, `<<`, `Math.imul`, `>>>0`), but every such
view agrees with the unsigned value modulo `2^32`, and each final `>>>0`
re-normalises; the embedding therefore tracks the unsigned value in `Nat`,
reduced `% 2^32` wherever JS wraps. -/

def pow32 : Nat := 4294967296

inductive ChecksumAlg
  | djb2
  | crc32
  | adler32
  | fnv1a
  | murmur3
deriving DecidableEq

/-- djb2: `hash = hash * 33 + code` wrapping at 32 bits, seed 5381. -/
def Checksum.djb2 (s : JStr) : Nat :=
  s.foldl (fun h c => (h * 33 + c) % pow32) 5381

/-- One CRC table entry: eight conditional steps of the reflected
polynomial 0xEDB88320. -/
def crcEntry (i : Nat) : Nat :=
  (List.range 8).foldl
    (fun c _ => if c % 2 = 1 then Nat.xor 3988292384 (c / 2) else c / 2) i

/-- The CRC-32 lookup table.  The source caches it process-wide; the cache
is write-once and rebuilding is always equivalent, so the pure table is the
faithful model. -/
def crcTable : List Nat := (List.range 256).map crcEntry

/-- crc32 over the low bytes of the code units, init and final XOR
0xFFFFFFFF. -/
def Checksum.crc32 (s : JStr) : Nat :=
  Nat.xor (s.foldl
    (fun crc c =>
      Nat.xor (crc / 256) (crcTable.getD (Nat.xor crc (c % 256) % 256) 0))
    4294967295) 4294967295

/-- adler32 over the code units, mod 65521, combined `(b <<< 16) ||| a`. -/
def Checksum.adler32 (s : JStr) : Nat :=
  let ab := s.foldl (fun ab c =>
    let a2 := (ab.1 + c) % 65521
    (a2, (ab.2 + a2) % 65521)) ((1, 0) : Nat × Nat)
  ab.2 * 65536 + ab.1

/-- fnv1a with offset basis 2166136261 and prime 16777619, wrapping
multiplication (`Math.imul`). -/
def Checksum.fnv1a (s : JStr) : Nat :=
  s.foldl (fun h c => Nat.xor h c * 16777619 % pow32) 2166136261

/-- UTF-8 bytes of a code point below 0x110000. -/
def utf8EncodeCp (cp : Nat) : List Nat :=
  if cp < 128 then [cp]
  else if cp < 2048 then [192 + cp / 64, 128 + cp % 64]
  else if cp < 65536 then [224 + cp / 4096, 128 + cp / 64 % 64, 128 + cp % 64]
  else [240 + cp / 262144, 128 + cp / 4096 % 64, 128 + cp / 64 % 64, 128 + cp % 64]

/-- `TextEncoder().encode`: UTF-16 to UTF-8, surrogate pairs combined and
lone surrogates replaced by U+FFFD. -/
def utf8Bytes : JStr → List Nat
  | [] => []
  | [c] =>
      if 55296 ≤ c ∧ c ≤ 57343 then utf8EncodeCp 65533 else utf8EncodeCp c
  | c1 :: c2 :: rest =>
      if 55296 ≤ c1 ∧ c1 ≤ 56319 then
        if 56320 ≤ c2 ∧ c2 ≤ 57343 then
          utf8EncodeCp (65536 + (c1 - 55296) * 1024 + (c2 - 56320)) ++ utf8Bytes rest
        else utf8EncodeCp 65533 ++ utf8Bytes (c2 :: rest)
      else if 55296 ≤ c1 ∧ c1 ≤ 57343 then utf8EncodeCp 65533 ++ utf8Bytes (c2 :: rest)
      else utf8EncodeCp c1 ++ utf8Bytes (c2 :: rest)

/-- 32-bit left rotation of a value below `2^32`. -/
def rotl32 (x r : Nat) : Nat := (x * 2 ^ r + x / 2 ^ (32 - r)) % pow32

/-- Split a byte list into full 4-byte chunks and the trailing remainder
(the JS loop `for (i = 0; i < len - 3; i += 4)` plus `len & 3` tail). -/
def chunk4 : List Nat → List (Nat × Nat × Nat × Nat) × List Nat
  | b0 :: b1 :: b2 :: b3 :: rest =>
      let p := chunk4 rest
      ((b0, b1, b2, b3) :: p.1, p.2)
  | l => ([], l)

/-- One murmur3 body round. -/
def murmurRound (h : Nat) (chunk : Nat × Nat × Nat × Nat) : Nat :=
  let k := (chunk.1 + chunk.2.1 * 256 + chunk.2.2.1 * 65536 + chunk.2.2.2 * 16777216) % pow32
  let k := rotl32 (k * 3432918353 % pow32) 15 * 461845907 % pow32
  let h := rotl32 (Nat.xor h k) 13
  (h * 5 + 3864292196) % pow32

/-- murmur3 over the UTF-8 bytes, seed 0, with the standard tail and
finalization mix. -/
def Checksum.murmur3 (s : JStr) : Nat :=
  let bytes := utf8Bytes s
  let len := bytes.length
  let p := chunk4 bytes
  let h := p.1.foldl murmurRound 0
  let k :=
    match p.2 with
    | [x, y, z] => Nat.xor (Nat.xor (x * 65536) (y * 256)) z
    | [y, z] => Nat.xor (y * 256) z
    | [z] => z
    | _ => 0
  let h := if p.2.length ≥ 1 then
      Nat.xor h (rotl32 (k * 3432918353 % pow32) 15 * 461845907 % pow32)
    else h
  let h := Nat.xor h len
  let h := Nat.xor h (h / 65536)
  let h := h * 2246822507 % pow32
  let h := Nat.xor h (h / 8192)
  let h := h * 3266489909 % pow32
  Nat.xor h (h / 65536)

def Checksum.hashOf : ChecksumAlg → JStr → Nat
  | .djb2 => Checksum.djb2
  | .crc32 => Checksum.crc32
  | .adler32 => Checksum.adler32
  | .fnv1a => Checksum.fnv1a
  | .murmur3 => Checksum.murmur3

/-- Base-36 digit character (lowercase, as JS `toString(36)`). -/
def base36DigitChar (d : Nat) : Nat := if d < 10 then 48 + d else 87 + d

/-- `Math.abs(hash).toString(36)` for the non-negative 32-bit hash. -/
def toBase36 (n : Nat) : JStr :=
  if n = 0 then [48] else ((natDigitsAux 36 (n + 1) n).map base36DigitChar).reverse

/-- `padStart(length, "0")`. -/
def padStart (len pad : Nat) (s : JStr) : JStr :=
  List.replicate (len - s.length) pad ++ s

/-- The validation of `generate` (`validateInput`): input ceiling
1,000,000 characters, algorithm membership (always satisfied by the closed
algorithm type), integer length in `[1, 16]`.  Lengths are JS numbers;
claims quantify over integers, so the `Number.isInteger` test is
satisfied by the `Int` type. -/
def Checksum.validateInput (input : JStr) (length : Int) : Option JStr :=
  if input.length > 1000000 then
    some (jstr "Input exceeds maximum length of 1000000 characters")
  else if length < 1 ∨ 16 < length then
    some (jstr "Length must be between 1 and 16")
  else none

/-- `Checksum.generate`: validate, hash, render base36, left-pad with `0`
when short, truncate when long.  `Except` errors model thrown
`ChecksumError`s. -/
def Checksum.generate (input : JStr) (alg : ChecksumAlg) (length : Int) :
    Except JStr JStr :=
  match Checksum.validateInput input length with
  | some e => .error e
  | none =>
      let hashStr := toBase36 (Checksum.hashOf alg input)
      let L := length.toNat
      if hashStr.length < L then .ok (padStart L 48 hashStr)
      else .ok (hashStr.take L)

/-- ASCII lowercase (the compared strings contain only ASCII
alphanumerics, the only characters the base36 regex admits). -/
def toLowerAscii (s : JStr) : JStr :=
  s.map (fun c => if 65 ≤ c ∧ c ≤ 90 then c + 32 else c)

/-- One character of the digest format class `[0-9a-z]` (case-insensitive
regex, so uppercase letters are admitted as well). -/
def isBase36Char (c : Nat) : Bool :=
  (48 ≤ c && c ≤ 57) || (97 ≤ c && c ≤ 122) || (65 ≤ c && c ≤ 90)

/-- `Checksum.validate`: checksum must be non-empty and match
`^[0-9a-z]+$/i`; then the digest is recomputed and compared
case-insensitively.  Validation failures inside `generate` propagate. -/
def Checksum.validate (input checksum : JStr) (alg : ChecksumAlg) (length : Int) :
    Except JStr Bool :=
  if checksum = [] then .error (jstr "Checksum cannot be empty")
  else if checksum.all isBase36Char then
    match Checksum.generate input alg length with
    | .error e => .error e
    | .ok expected => .ok (toLowerAscii expected = toLowerAscii checksum)
  else .error (jstr "Checksum contains invalid characters")

/-! ### Generator (`generator.ts`)

`generateRandomString` draws `Math.floor(Math.random() * alphabet.length)`
for each position; randomness is modelled by a parameter `r : Nat → Nat`
whose value is reduced modulo the alphabet length (the exact range of the
JS draw for a non-empty alphabet; for the empty alphabet the JS draw is
exactly 0, and indexing yields `undefined`, which `join` renders as the
empty string — modelled by `Option` and `filterMap`). -/

def Generator.generateRandomString (length : Nat) (alphabet : JStr)
    (r : Nat → Nat) : JStr :=
  ((List.range length).map
    (fun i => alphabet.get? (if alphabet.length = 0 then 0 else r i % alphabet.length))).filterMap id

/-! The collision-safe loop.  The base generator `Generator.generate` draws
fresh randomness per call; it is modelled by a parameter `gen : Nat → JStr`
giving the candidate of each attempt, and the caller's async
`checkFunction` by `check : Nat → JStr → Bool` (a JS closure may be
stateful, hence the attempt index).  The loop's observable behaviour is an
event trace — generator calls, predicate calls, backoff sleeps — plus the
returned id or the thrown exhaustion error. -/

inductive SafeEvent
  | genCall (i : Nat)
  | predCall (i : Nat) (id : JStr) (res : Bool)
  | sleep (ms : Nat)
deriving DecidableEq

/-- The backoff delay passed to `setTimeout` after `attempts` failures:
`2^attempts` for `"exponential"`, otherwise `100 * attempts`. -/
def backoffDelay (backoffType : JStr) (attempts : Nat) : Nat :=
  if backoffType = jstr "exponential" then 2 ^ attempts else 100 * attempts

/-- Exhaustion error message, naming the configured maximum. -/
def exhaustMsg (maxAttempts : Nat) : JStr :=
  jstr "Failed to generate unique ID after " ++ natToDecStr maxAttempts ++
    jstr " attempts"

/-- The `while (attempts < maxAttempts)` loop of `Generator.safe`:
`rem = maxAttempts - attempts` counts the remaining iterations (the counter
increments by exactly 1 per iteration, so the loop exits precisely when
`rem` reaches 0).  Note that the backoff sleep runs after every failed
attempt — including the last one before the exhaustion throw. -/
def safeGo (backoffType : JStr) (gen : Nat → JStr) (check : Nat → JStr → Bool)
    (maxAttempts : Nat) : Nat → Nat → List SafeEvent × Except JStr JStr
  | 0, _ => ([], .error (exhaustMsg maxAttempts))
  | rem + 1, attempts =>
      if check attempts (gen attempts) then
        ([.genCall attempts, .predCall attempts (gen attempts) true], .ok (gen attempts))
      else
        (.genCall attempts :: .predCall attempts (gen attempts) false ::
           .sleep (backoffDelay backoffType (attempts + 1)) ::
           (safeGo backoffType gen check maxAttempts rem (attempts + 1)).1,
         (safeGo backoffType gen check maxAttempts rem (attempts + 1)).2)

/-- `Generator.safe`: run the loop from attempt 0. -/
def Generator.safe (maxAttempts : Nat) (backoffType : JStr) (gen : Nat → JStr)
    (check : Nat → JStr → Bool) : List SafeEvent × Except JStr JStr :=
  safeGo backoffType gen check maxAttempts maxAttempts 0

/-- Number of generator invocations in a trace. -/
def countGen (tr : List SafeEvent) : Nat :=
  (tr.filter (fun e => match e with | .genCall _ => true | _ => false)).length

/-- Number of predicate invocations in a trace. -/
def countPred (tr : List SafeEvent) : Nat :=
  (tr.filter (fun e => match e with | .predCall _ _ _ => true | _ => false)).length

/-- Number of backoff sleeps in a trace. -/
def countSleep (tr : List SafeEvent) : Nat :=
  (tr.filter (fun e => match e with | .sleep _ => true | _ => false)).length

instance {α β : Type} [DecidableEq α] [DecidableEq β] : DecidableEq (Except α β)
  | .ok a, .ok b =>
      if h : a = b then .isTrue (by rw [h]) else .isFalse (by simp [h])
  | .error a, .error b =>
      if h : a = b then .isTrue (by rw [h]) else .isFalse (by simp [h])
  | .ok _, .error _ => .isFalse (fun h => Except.noConfusion h)
  | .error _, .ok _ => .isFalse (fun h => Except.noConfusion h)

/-! ## Claim theorems -/

/-- C2: the compressors are claimed lossless over code points 0–255 with
empty-string fixpoints.  The empty-string clauses hold, but the dictionary
("gzip") compressor emits LZW codes of 256 and above through
`String.fromCharCode` into `btoa`, which throws on any code unit above
255: already on `"aaa"` the emitted code stream is `[97, 256]` and
`compress` throws instead of producing a reversible string, so the
round-trip claim fails on the code. -/
theorem c2_gzip_compress_throws_on_aaa :
    Encoder.compress (jstr "aaa") gzipName = none ∧
    lzwCompress (jstr "aaa") = [97, 256] ∧
    Encoder.compress [] lz77Name = some [] ∧
    Encoder.compress [] gzipName = some [] ∧
    Encoder.decompress [] lz77Name = [] ∧
    Encoder.decompress [] gzipName = [] := by
  refine ⟨by decide, by decide, rfl, rfl, rfl, rfl⟩

/-- C9 counterexample: with an empty alphabet the random-character source
does not raise an invalid-argument error; it returns a value — the empty
string — for a positive requested length (each draw indexes `undefined`
and `join` renders it as the empty string). -/
theorem c9_empty_alphabet_returns_value :
    Generator.generateRandomString 5 [] (fun _ => 0) = [] := by decide

/-- C9 amended: with an empty alphabet the source returns the empty string
for every requested length and every randomness stream (no failure is
raised); with any alphabet, requested length 0 also yields the empty
string. -/
theorem c9_amended :
    (∀ (length : Nat) (r : Nat → Nat),
        Generator.generateRandomString length [] r = []) ∧
    (∀ (alphabet : JStr) (r : Nat → Nat),
        Generator.generateRandomString 0 alphabet r = []) := by
  constructor
  · intro length r
    simp [Generator.generateRandomString, List.filterMap_map]
  · intro alphabet r
    rfl

/-- C10: `Encoder.decode` reverses the caller's encoding array in place
(the returned array state is the reversal of the argument), and decoding
runs in the mirror order of encoding: the result is the fold of the
single-encoding decoders over the reversed list, so for `encs ++ [e]` the
last-added encoding `e` is decoded first. -/
theorem c10_decode_mutates_and_mirrors : ∀ (input : JStr),
    (∀ encodings : List JStr,
        (Encoder.decode input encodings).2 = encodings.reverse) ∧
    (∀ encodings : List JStr,
        (Encoder.decode input encodings).1 = decodeSeq encodings.reverse input) ∧
    (∀ (e : JStr) (encs : List JStr),
        (Encoder.decode input (encs ++ [e])).1
          = (fallbackDecode e input).bind (fun r => decodeSeq encs.reverse r)) := by
  intro input
  refine ⟨fun _ => rfl, fun _ => rfl, fun e encs => ?_⟩
  simp [Encoder.decode, decodeSeq, List.reverse_append]

/-- C3: with an always-false predicate and `maxAttempts = 3` the base
generator and the predicate each run exactly 3 times and the loop throws
the collision-exhaustion error naming the configured maximum; with a
predicate accepting on the 2nd attempt, exactly 2 attempts occur, the 2nd
candidate is returned and no failure is raised. -/
theorem c3_collision_safe_attempt_counts :
    (∀ (bt : JStr) (gen : Nat → JStr),
        countGen (Generator.safe 3 bt gen (fun _ _ => false)).1 = 3 ∧
        countPred (Generator.safe 3 bt gen (fun _ _ => false)).1 = 3 ∧
        (Generator.safe 3 bt gen (fun _ _ => false)).2 = .error (exhaustMsg 3)) ∧
    (∀ (bt : JStr) (gen : Nat → JStr) (check : Nat → JStr → Bool),
        check 0 (gen 0) = false → check 1 (gen 1) = true →
        countGen (Generator.safe 3 bt gen check).1 = 2 ∧
        countPred (Generator.safe 3 bt gen check).1 = 2 ∧
        (Generator.safe 3 bt gen check).2 = .ok (gen 1)) := by
  constructor
  · intro bt gen
    refine ⟨rfl, rfl, rfl⟩
  · intro bt gen check h0 h1
    simp [Generator.safe, safeGo, h0, h1, countGen, countPred, List.filter]

theorem c3_collision_safe_attempt_counts_witness :
    countGen (Generator.safe 3 (jstr "linear") (fun i => [i])
      (fun i _ => decide (i = 1))).1 = 2 ∧
    countPred (Generator.safe 3 (jstr "linear") (fun i => [i])
      (fun i _ => decide (i = 1))).1 = 2 ∧
    (Generator.safe 3 (jstr "linear") (fun i => [i])
      (fun i _ => decide (i = 1))).2 = .ok [1] :=
  c3_collision_safe_attempt_counts.2 (jstr "linear") (fun i => [i])
    (fun i _ => decide (i = 1)) (by decide) (by decide)

/-- C4 counterexample: with `maxAttempts = 1` and an always-false
predicate, the trace ends with a backoff sleep (of `2^1` for exponential
backoff) placed after the final — and only — failed attempt, immediately
before the exhaustion error is raised; the claim says no delay occurs
there. -/
theorem c4_sleeps_after_final_failed_attempt :
    (Generator.safe 1 (jstr "exponential") (fun _ => jstr "x")
        (fun _ _ => false)).1
      = [.genCall 0, .predCall 0 (jstr "x") false, .sleep 2] ∧
    (Generator.safe 1 (jstr "exponential") (fun _ => jstr "x")
        (fun _ _ => false)).1.getLast? = some (.sleep 2) ∧
    (Generator.safe 1 (jstr "exponential") (fun _ => jstr "x")
        (fun _ _ => false)).2 = .error (exhaustMsg 1) := by
  refine ⟨by decide, by decide, rfl⟩

theorem safeGo_ok_getLast (bt : JStr) (gen : Nat → JStr)
    (check : Nat → JStr → Bool) (maxA : Nat) (id : JStr) :
    ∀ (rem attempts : Nat),
      (safeGo bt gen check maxA rem attempts).2 = .ok id →
      ∃ k, (safeGo bt gen check maxA rem attempts).1.getLast?
              = some (.predCall k id true)
  | 0, attempts => by
      intro h
      simp [safeGo] at h
  | rem + 1, attempts => by
      intro h
      unfold safeGo at h ⊢
      by_cases hc : check attempts (gen attempts)
      · rw [if_pos hc] at h ⊢
        simp only [Except.ok.injEq] at h
        subst h
        exact ⟨attempts, rfl⟩
      · rw [if_neg hc] at h ⊢
        simp only at h
        obtain ⟨k, hk⟩ := safeGo_ok_getLast bt gen check maxA id rem (attempts + 1) h
        refine ⟨k, ?_⟩
        have hne : (safeGo bt gen check maxA rem (attempts + 1)).1 ≠ [] := by
          intro e
          rw [e] at hk
          simp at hk
        exact (List.getLast?_append_of_ne_nil
          [SafeEvent.genCall attempts,
           SafeEvent.predCall attempts (gen attempts) false,
           SafeEvent.sleep (backoffDelay bt (attempts + 1))] hne).trans hk

theorem countSleep_fail_blocks (bt : JStr) (gen : Nat → JStr) :
    ∀ (l : List Nat),
      countSleep ((l.map (fun i =>
        [SafeEvent.genCall i, SafeEvent.predCall i (gen i) false,
         SafeEvent.sleep (backoffDelay bt (i + 1))])).join) = l.length
  | [] => rfl
  | i :: rest => by
      have ih := countSleep_fail_blocks bt gen rest
      simp only [countSleep, List.map_cons, List.join_cons, List.filter_append,
        List.length_append, List.filter_cons, List.filter_nil] at ih ⊢
      simp at ih ⊢
      omega

theorem safeGo_all_fail (bt : JStr) (gen : Nat → JStr)
    (check : Nat → JStr → Bool) (maxA : Nat)
    (hfail : ∀ i, check i (gen i) = false) :
    ∀ (rem attempts : Nat),
      safeGo bt gen check maxA rem attempts
        = (((List.range' attempts rem).map (fun i =>
              [SafeEvent.genCall i, SafeEvent.predCall i (gen i) false,
               SafeEvent.sleep (backoffDelay bt (i + 1))])).join,
           .error (exhaustMsg maxA))
  | 0, attempts => by simp [safeGo]
  | rem + 1, attempts => by
      unfold safeGo
      rw [if_neg (by simp [hfail attempts])]
      rw [safeGo_all_fail bt gen check maxA hfail rem (attempts + 1)]
      simp [List.range']

/-- C4 amended: the backoff sleep never precedes the first attempt and
never follows a successful one, but it does follow every failed attempt —
including the final failed attempt just before the exhaustion error: an
all-failing run of `maxAttempts` attempts contains exactly one sleep per
attempt, the `i`-th of duration `2^(i+1)` (exponential) or `100 * (i+1)`
(linear). -/
theorem c4_amended_backoff_placement :
    (∀ (maxA : Nat) (bt : JStr) (gen : Nat → JStr) (check : Nat → JStr → Bool),
        0 < maxA →
        (Generator.safe maxA bt gen check).1.head? = some (.genCall 0)) ∧
    (∀ (maxA : Nat) (bt : JStr) (gen : Nat → JStr) (check : Nat → JStr → Bool)
        (id : JStr),
        (Generator.safe maxA bt gen check).2 = .ok id →
        ∃ k, (Generator.safe maxA bt gen check).1.getLast?
                = some (.predCall k id true)) ∧
    (∀ (maxA : Nat) (bt : JStr) (gen : Nat → JStr) (check : Nat → JStr → Bool),
        (∀ i, check i (gen i) = false) →
        (Generator.safe maxA bt gen check).1
            = ((List.range maxA).map (fun i =>
                [SafeEvent.genCall i, SafeEvent.predCall i (gen i) false,
                 SafeEvent.sleep (backoffDelay bt (i + 1))])).join ∧
        countSleep (Generator.safe maxA bt gen check).1 = maxA ∧
        (Generator.safe maxA bt gen check).2 = .error (exhaustMsg maxA)) := by
  refine ⟨?_, ?_, ?_⟩
  · intro maxA bt gen check hpos
    obtain ⟨m, rfl⟩ : ∃ m, maxA = m + 1 := ⟨maxA - 1, by omega⟩
    unfold Generator.safe safeGo
    by_cases hc : check 0 (gen 0)
    · rw [if_pos hc]
      rfl
    · rw [if_neg hc]
      rfl
  · intro maxA bt gen check id h
    exact safeGo_ok_getLast bt gen check maxA id maxA 0 h
  · intro maxA bt gen check hfail
    have h := safeGo_all_fail bt gen check maxA hfail maxA 0
    unfold Generator.safe
    rw [h, List.range_eq_range']
    refine ⟨rfl, ?_, rfl⟩
    rw [← List.range_eq_range', countSleep_fail_blocks bt gen (List.range maxA),
      List.length_range]

/-- C4 witness obligations discharged at concrete inputs. -/
theorem c4_amended_backoff_placement_witness :
    (Generator.safe 1 (jstr "linear") (fun _ => jstr "x")
        (fun _ _ => false)).1.head? = some (.genCall 0) ∧
    (∃ k, (Generator.safe 1 (jstr "linear") (fun _ => jstr "x")
        (fun _ _ => true)).1.getLast? = some (.predCall k (jstr "x") true)) ∧
    countSleep (Generator.safe 2 (jstr "linear") (fun _ => jstr "x")
        (fun _ _ => false)).1 = 2 :=
  ⟨c4_amended_backoff_placement.1 1 (jstr "linear") (fun _ => jstr "x")
      (fun _ _ => false) (by decide),
   c4_amended_backoff_placement.2.1 1 (jstr "linear") (fun _ => jstr "x")
      (fun _ _ => true) (jstr "x") rfl,
   (c4_amended_backoff_placement.2.2 2 (jstr "linear") (fun _ => jstr "x")
      (fun _ _ => false) (fun _ => rfl)).2.1⟩

/-- Splitting `a ++ sep :: b` with a separator-free first part. -/
theorem splitAll_take_two_left (sep : Nat) (a b : JStr) (ha : sep ∉ a) :
    (splitAll sep (a ++ sep :: b)).take 2 = [a, b.takeWhile (· ≠ sep)] := by
  rw [splitAll_take_two sep _ (by simp)]
  have hta : (a ++ sep :: b).takeWhile (· ≠ sep) = a := by
    rw [List.takeWhile_append_of_pos ?_]
    · rw [List.takeWhile_cons_of_neg] <;> simp
    · intro x hx
      simp only [decide_eq_true_eq]
      exact fun e => ha (e ▸ hx)
  have hda : (a ++ sep :: b).dropWhile (· ≠ sep) = sep :: b := by
    rw [List.dropWhile_append_of_pos ?_]
    · rw [List.dropWhile_cons_of_neg] <;> simp
    · intro x hx
      simp only [decide_eq_true_eq]
      exact fun e => ha (e ▸ hx)
  rw [hta, hda]
  simp

/-- C6: `reverse` is a total function into an option — every fault becomes
the `none` sentinel.  Without the `:` delimiter the result is `none`; with
a delimiter, whenever base64-decoding or config-parsing of the segment
before the first `:` fails, the result is also `none`. -/
theorem c6_reverse_returns_sentinel :
    (∀ input : JStr, 58 ∉ input → EncodingPipeline.reverse input = none) ∧
    (∀ a b : JStr, 58 ∉ a → (atob a).bind parseConfig = none →
        EncodingPipeline.reverse (a ++ 58 :: b) = none) := by
  constructor
  · intro input h
    unfold EncodingPipeline.reverse
    rw [if_neg h]
  · intro a b ha hfail
    unfold EncodingPipeline.reverse
    rw [if_pos (by simp), splitAll_take_two_left 58 a b ha]
    show reverseBody a (b.takeWhile (· ≠ 58)) = none
    unfold reverseBody
    rcases h1 : atob a with _ | cfgJson
    · rfl
    · rw [h1] at hfail
      simp only [Option.some_bind] at hfail
      simp [hfail]

theorem c6_reverse_returns_sentinel_witness :
    EncodingPipeline.reverse (jstr "abc") = none ∧
    EncodingPipeline.reverse (jstr "ab" ++ 58 :: jstr "cd") = none :=
  ⟨c6_reverse_returns_sentinel.1 (jstr "abc") (by decide),
   c6_reverse_returns_sentinel.2 (jstr "ab") (jstr "cd") (by decide) (by decide)⟩

/-- C5 counterexample: an envelope whose payload contains a further `:`.
The config segment decodes to the empty-pipeline config, so a
first-occurrence split would return the entire remainder `"x:y"`; the code
returns only `"x"` — `split(":", 2)` discards everything from the second
`:` on. -/
theorem c5_payload_truncated_at_second_colon :
    EncodingPipeline.reverse
        (b64EncodeBytes (stringifyConfig ⟨[], noneName, []⟩) ++ 58 :: jstr "x:y")
      = some (jstr "x") ∧ jstr "x" ≠ jstr "x:y" := by
  refine ⟨by decide, by decide⟩

/-- C5 amended: `reverse` splits at the first `:` for the config segment,
but the payload handed to the rest of the pipeline is only the portion
strictly between the first and second `:` (the entire remainder exactly
when no second `:` exists). -/
theorem c5_amended_split_shape (input : JStr) (h : 58 ∈ input) :
    EncodingPipeline.reverse input
      = reverseBody (input.takeWhile (· ≠ 58))
          (((input.dropWhile (· ≠ 58)).drop 1).takeWhile (· ≠ 58)) := by
  unfold EncodingPipeline.reverse
  rw [if_pos h, splitAll_take_two 58 input h]

theorem c5_amended_split_shape_witness :
    EncodingPipeline.reverse (jstr "a:b")
      = reverseBody ((jstr "a:b").takeWhile (· ≠ 58))
          ((((jstr "a:b").dropWhile (· ≠ 58)).drop 1).takeWhile (· ≠ 58)) :=
  c5_amended_split_shape (jstr "a:b") (by decide)

theorem fallbackEncode_b64 (s : JStr) : fallbackEncode b64Name s = btoa s := by
  unfold fallbackEncode
  rw [if_pos rfl]

theorem fallbackEncode_hex (s : JStr) : fallbackEncode hexName s = some (hexEncode s) := by
  unfold fallbackEncode
  rw [if_neg (by decide), if_pos rfl]

theorem fallbackDecode_b64 (s : JStr) : fallbackDecode b64Name s = atob s := by
  unfold fallbackDecode
  rw [if_pos rfl]

theorem fallbackDecode_hex (s : JStr) : fallbackDecode hexName s = some (hexDecode s) := by
  unfold fallbackDecode
  rw [if_neg (by decide), if_pos rfl]

theorem mem_hexEncode (s : JStr) (h : ∀ c ∈ s, c < 256) :
    ∀ x ∈ hexEncode s, x ≠ 58 ∧ x < 256 := by
  intro x hx
  unfold hexEncode at hx
  rw [List.mem_join] at hx
  obtain ⟨l, hl, hxl⟩ := hx
  obtain ⟨c, hc, rfl⟩ := List.mem_map.mp hl
  exact hexEncodeChar_mem c (h c hc) x hxl

/-- The `[base64, hex]`, compression `"none"`, reversibility-enabled
pipeline of the concrete scenario. -/
def pipelineB64Hex : EncodingPipeline :=
  { encoders := [b64Name, hexName], compressionMethod := noneName,
    isReversible := true, metadata := [] }

/-- C1 counterexample: a reversibility-enabled pipeline for which
`reverse(process(s))` is not `s`.  With no encoders configured (every
input string is then within the supported charset) and no compression,
processing `"x:y"` and reversing yields `"x"`: the payload is cut at its
own `:` by `split(":", 2)`. -/
theorem c1_roundtrip_fails_on_colon_payload :
    ((EncodingPipeline.process
        { encoders := [], compressionMethod := noneName, isReversible := true,
          metadata := [] } (jstr "x:y")).bind EncodingPipeline.reverse)
      = some (jstr "x") ∧ jstr "x" ≠ jstr "x:y" := by
  refine ⟨by decide, by decide⟩

theorem parseConfig_b64hex :
    parseConfig (stringifyConfig ⟨[b64Name, hexName], noneName, []⟩)
      = some ⟨[b64Name, hexName], noneName, []⟩ := by decide

/-- C1 amended: for the concrete-scenario pipeline `[base64, hex]` with
compression `"none"` and reversibility enabled, the round trip holds for
every input of code units below 256 (the charset `btoa` supports): the
hex-encoded payload contains no `:`, so the truncating split is harmless
here. -/
theorem c1_amended_b64hex_roundtrip (s : JStr) (h : ∀ c ∈ s, c < 256) :
    (EncodingPipeline.process pipelineB64Hex s).bind EncodingPipeline.reverse
      = some s := by
  obtain ⟨hb, hab⟩ := atob_btoa s h
  have he1lt : ∀ c ∈ b64EncodeBytes s, c < 256 :=
    fun c hc => (mem_b64EncodeBytes s c hc).2
  have hpay := mem_hexEncode (b64EncodeBytes s) he1lt
  have hcfg : ∀ c ∈ stringifyConfig ⟨[b64Name, hexName], noneName, []⟩, c < 256 := by
    decide
  obtain ⟨hcb, hcab⟩ := atob_btoa _ hcfg
  have henc : encodeSeq [b64Name, hexName] s
      = some (hexEncode (b64EncodeBytes s)) := by
    simp [encodeSeq, fallbackEncode_b64, fallbackEncode_hex, hb]
  have hproc : EncodingPipeline.process pipelineB64Hex s
      = some (b64EncodeBytes (stringifyConfig ⟨[b64Name, hexName], noneName, []⟩)
          ++ 58 :: hexEncode (b64EncodeBytes s)) := by
    unfold EncodingPipeline.process pipelineB64Hex
    simp [henc, hcb]
  have hnocolon1 : (58 : Nat) ∉
      b64EncodeBytes (stringifyConfig ⟨[b64Name, hexName], noneName, []⟩) :=
    fun hx => (mem_b64EncodeBytes _ 58 hx).1 rfl
  have hnocolon2 : (58 : Nat) ∉ hexEncode (b64EncodeBytes s) :=
    fun hx => (hpay 58 hx).1 rfl
  have hdec : decodeSeq [hexName, b64Name] (hexEncode (b64EncodeBytes s))
      = some s := by
    simp [decodeSeq, fallbackDecode_hex, fallbackDecode_b64,
      hexDecode_hexEncode _ he1lt, hab]
  have hrev : EncodingPipeline.reverse
      (b64EncodeBytes (stringifyConfig ⟨[b64Name, hexName], noneName, []⟩)
        ++ 58 :: hexEncode (b64EncodeBytes s)) = some s := by
    unfold EncodingPipeline.reverse
    rw [if_pos (by simp),
      splitAll_take_two_clean 58 _ _ hnocolon1 hnocolon2]
    show reverseBody _ _ = some s
    unfold reverseBody
    rw [hcab]
    simp [Encoder.decode, hdec, parseConfig_b64hex]
  rw [hproc]
  simpa using hrev

theorem c1_amended_b64hex_roundtrip_witness :
    (EncodingPipeline.process pipelineB64Hex (jstr "hello")).bind
        EncodingPipeline.reverse = some (jstr "hello") :=
  c1_amended_b64hex_roundtrip (jstr "hello") (by decide)

theorem natDigitsAux_mem_lt (b : Nat) (hb : 0 < b) :
    ∀ (fuel n : Nat), ∀ d ∈ natDigitsAux b fuel n, d < b
  | 0, n => by simp [natDigitsAux]
  | fuel + 1, n => by
      unfold natDigitsAux
      split
      · simp
      · intro d hd
        rcases List.mem_cons.mp hd with h | h
        · exact h ▸ Nat.mod_lt _ hb
        · exact natDigitsAux_mem_lt b hb fuel (n / b) d h

theorem isBase36Char_base36DigitChar : ∀ d < 36, isBase36Char (base36DigitChar d) = true := by
  decide

theorem toBase36_all (n : Nat) : (toBase36 n).all isBase36Char = true := by
  unfold toBase36
  split
  · rfl
  · simp only [List.all_eq_true, List.mem_reverse]
    intro c hc
    obtain ⟨d, hd, rfl⟩ := List.mem_map.mp hc
    exact isBase36Char_base36DigitChar d (natDigitsAux_mem_lt 36 (by omega) _ _ d hd)

/-- The `.ok` normal form of `generate` under the validation constraints. -/
theorem generate_ok (input : JStr) (alg : ChecksumAlg) (L : Int)
    (h1 : input.length ≤ 1000000) (h2 : 1 ≤ L) (h3 : L ≤ 16) :
    Checksum.generate input alg L
      = .ok (if (toBase36 (Checksum.hashOf alg input)).length < L.toNat
             then padStart L.toNat 48 (toBase36 (Checksum.hashOf alg input))
             else (toBase36 (Checksum.hashOf alg input)).take L.toNat) := by
  unfold Checksum.generate Checksum.validateInput
  rw [if_neg (by omega), if_neg (by omega)]
  split
  next _ heq => cases heq
  next _ =>
    dsimp only
    split <;> rfl

/-- The digest has the claimed format class in every branch. -/
theorem generate_ok_format (input : JStr) (alg : ChecksumAlg) (L : Int) :
    ((if (toBase36 (Checksum.hashOf alg input)).length < L.toNat
      then padStart L.toNat 48 (toBase36 (Checksum.hashOf alg input))
      else (toBase36 (Checksum.hashOf alg input)).take L.toNat)).all isBase36Char
      = true := by
  have hall := toBase36_all (Checksum.hashOf alg input)
  rw [List.all_eq_true] at hall
  split
  · unfold padStart
    rw [List.all_eq_true]
    intro c hc
    rcases List.mem_append.mp hc with h | h
    · rw [List.eq_of_mem_replicate h]
      rfl
    · exact hall c h
  · rw [List.all_eq_true]
    intro c hc
    exact hall c (List.mem_of_mem_take hc)

theorem generate_ok_length (input : JStr) (alg : ChecksumAlg) (L : Int)
    (h2 : 1 ≤ L) :
    ((if (toBase36 (Checksum.hashOf alg input)).length < L.toNat
      then padStart L.toNat 48 (toBase36 (Checksum.hashOf alg input))
      else (toBase36 (Checksum.hashOf alg input)).take L.toNat)).length
      = L.toNat := by
  split
  · unfold padStart
    rw [List.length_append, List.length_replicate]
    omega
  · rw [List.length_take]
    omega

/-- C7: under the validation constraints `generate` is deterministic (it
is a pure function of its arguments) and its digest validates against the
same input, algorithm and length; concretely, the crc32 digest of
`"data"` at length 8 is `"01c9kfab"`, which validates under crc32 and is
rejected under fnv1a. -/
theorem c7_generate_validate_roundtrip :
    (∀ (input : JStr) (alg : ChecksumAlg) (L : Int),
        input.length ≤ 1000000 → 1 ≤ L → L ≤ 16 →
        Checksum.generate input alg L = Checksum.generate input alg L ∧
        ∃ d, Checksum.generate input alg L = .ok d ∧
             Checksum.validate input d alg L = .ok true) ∧
    Checksum.generate (jstr "data") .crc32 8 = .ok (jstr "01c9kfab") ∧
    Checksum.validate (jstr "data") (jstr "01c9kfab") .crc32 8 = .ok true ∧
    Checksum.validate (jstr "data") (jstr "01c9kfab") .fnv1a 8 = .ok false := by
  refine ⟨?_, by decide, by decide, by decide⟩
  intro input alg L h1 h2 h3
  refine ⟨rfl, ?_⟩
  rw [generate_ok input alg L h1 h2 h3]
  refine ⟨_, rfl, ?_⟩
  have hlen := generate_ok_length input alg L h2
  have hfmt := generate_ok_format input alg L
  unfold Checksum.validate
  rw [if_neg ?_, if_pos hfmt, generate_ok input alg L h1 h2 h3]
  · simp
  · intro e
    rw [e] at hlen
    simp at hlen
    omega

theorem c7_generate_validate_roundtrip_witness :
    ∃ d, Checksum.generate (jstr "data") ChecksumAlg.crc32 8 = .ok d ∧
         Checksum.validate (jstr "data") d ChecksumAlg.crc32 8 = .ok true :=
  (c7_generate_validate_roundtrip.1 (jstr "data") ChecksumAlg.crc32 8
    (by decide) (by decide) (by decide)).2

/-- C8: under the validation constraints the digest has exactly the
requested length: the base36 rendering of the 32-bit hash left-padded
with `0` when shorter, truncated when longer. -/
theorem c8_generate_length (input : JStr) (alg : ChecksumAlg) (L : Int)
    (h1 : input.length ≤ 1000000) (h2 : 1 ≤ L) (h3 : L ≤ 16) :
    ∃ d, Checksum.generate input alg L = .ok d ∧ d.length = L.toNat ∧
      d = (if (toBase36 (Checksum.hashOf alg input)).length < L.toNat
           then padStart L.toNat 48 (toBase36 (Checksum.hashOf alg input))
           else (toBase36 (Checksum.hashOf alg input)).take L.toNat) :=
  ⟨_, generate_ok input alg L h1 h2 h3, generate_ok_length input alg L h2, rfl⟩

theorem c8_generate_length_witness :
    ∃ d, Checksum.generate (jstr "data") ChecksumAlg.djb2 4 = .ok d ∧
      d.length = (4 : Int).toNat ∧
      d = (if (toBase36 (Checksum.hashOf ChecksumAlg.djb2 (jstr "data"))).length
              < (4 : Int).toNat
           then padStart (4 : Int).toNat 48
              (toBase36 (Checksum.hashOf ChecksumAlg.djb2 (jstr "data")))
           else (toBase36 (Checksum.hashOf ChecksumAlg.djb2 (jstr "data"))).take
              (4 : Int).toNat) :=
  c8_generate_length (jstr "data") ChecksumAlg.djb2 4 (by decide) (by decide)
    (by decide)
